import Mathlib

/-!
Verification of the codeowners repository's not-owned-file check and exit
decision, as a shallow embedding of the Go sources
(`internal/check/not_owned_file.go`, `cmd/codeowners/codeowners.go`).

Errors are modelled as `List String`: the empty list is Go's `nil` error,
and `multierror.Append(err, e).ErrorOrNil()` (hashicorp go-multierror,
which keeps every non-nil member) is list concatenation with the
`Option.toList` of the second error.
-/

set_option maxHeartbeats 1000000
set_option linter.unnecessarySeqFocus false

/-- Modelled from the spec: an OwnershipEntry `{Pattern, Owners}` —
`pkg/codeowners.Entry` is produced by the external parser and its source is
not under `src/`. -/
structure Entry where
  Pattern : String
  Owners : List String
deriving DecidableEq

/-- Modelled from the spec: the CheckInput `{RepositoryDirectory, Entries}` —
`internal/api.Input` is not under `src/`. -/
structure Input where
  RepoDir : String
  CodeownersEntries : List Entry
deriving DecidableEq

/-- Modelled from the spec: CheckOutput is the ordered sequence of issues, and
`api.OutputBuilder.ReportIssue` appends one issue message —
`internal/api` is not under `src/`. Issues are kept as their message strings. -/
structure Output where
  Issues : List String
deriving DecidableEq

/-- The `NotOwnedFile` checker configuration (`not_owned_file.go`). The Go
`skipPatterns` field is a `map[string]struct{}` used only for membership
tests; it is modelled by a list queried with exact-string `contains`. -/
structure NotOwnedFile where
  skipPatterns : List String
  subDirectories : List String
  trustWorkspace : Bool

/-- Translation of `NotOwnedFile.patternsToBeIgnored`: walk the entries in
order, skip an entry whose pattern is in the skip set, otherwise append its
pattern. -/
def patternsToBeIgnored (c : NotOwnedFile) (entries : List Entry) : List String :=
  match entries with
  | [] => []
  | entry :: rest =>
    if c.skipPatterns.contains entry.Pattern then
      patternsToBeIgnored c rest
    else
      entry.Pattern :: patternsToBeIgnored c rest

/-- The block `AppendToGitignoreFile` writes: a `strings.Builder` seeded with
one newline, then each pattern followed by a newline
(`not_owned_file.go` lines 128 to 133). -/
def gitignoreAppendBlock (patterns : List String) : String :=
  patterns.foldl (fun content p => content ++ (p ++ "\n")) "\n"

/-- Each pattern on its own newline-terminated line — the spec's wording of
the appended block, for comparison with the translated builder loop. -/
def newlineTerminated : List String → String
  | [] => ""
  | p :: ps => p ++ "\n" ++ newlineTerminated ps

/-- Translation of `NotOwnedFile.AppendToGitignoreFile` at the level of file
contents: the file is opened with `O_APPEND` and `O_CREATE` (mode `0644`), so
the built block is appended to the existing content, the existing content
being empty when the file did not exist. -/
def AppendToGitignoreFile (old : Option String) (patterns : List String) : String :=
  old.getD "" ++ gitignoreAppendBlock patterns

theorem gitignoreAppendBlock_eq (s : String) (ps : List String) :
    ps.foldl (fun content p => content ++ (p ++ "\n")) s = s ++ newlineTerminated ps := by
  induction ps generalizing s with
  | nil => simp [newlineTerminated]
  | cons p rest ih =>
    simp only [List.foldl_cons, newlineTerminated, ih, String.append_assoc]

/-- CLAIM C6: `AppendToGitignoreFile` appends exactly one newline character
followed by each pattern on its own newline-terminated line, leaving all
pre-existing content unchanged (the result is the old content followed by the
block), so the appended block starts on its own line regardless of whether
the prior content ended with a newline. -/
theorem append_to_gitignore_appends_block (old : Option String) (patterns : List String) :
    AppendToGitignoreFile old patterns = old.getD "" ++ ("\n" ++ newlineTerminated patterns) := by
  unfold AppendToGitignoreFile gitignoreAppendBlock
  rw [gitignoreAppendBlock_eq]

/-- CLAIM C5: `patternsToBeIgnored` returns exactly the entries' patterns in
entry order with every pattern that is an exact string member of the skip set
removed; duplicates are preserved as given (the result is the filtered map,
nothing is deduplicated), and the computation is a pure total function. -/
theorem patternsToBeIgnored_filters_skip_set (c : NotOwnedFile) (entries : List Entry) :
    patternsToBeIgnored c entries
      = (entries.map Entry.Pattern).filter (fun p => !(c.skipPatterns.contains p)) := by
  induction entries with
  | nil => rfl
  | cons e rest ih =>
    by_cases h : c.skipPatterns.contains e.Pattern
    · simp [patternsToBeIgnored, h, ih, List.filter_cons]
    · simp [patternsToBeIgnored, h, ih, List.filter_cons]

/-- The three ways `NewRoot`'s run function can leave the process
(`cmd/codeowners/codeowners.go`): interrupted, check failure, or a normal
return. -/
inductive ExitOutcome where
  | interrupted
  | checkFailure
  | success
deriving DecidableEq

/-- Translation of the exit decision after `checkRunner.Run` returns
(`codeowners.go` lines 53 to 59): a context error is checked first and exits
with code 2; otherwise `ShouldExitWithCheckFailure` exits with code 3. -/
def runnerExit (ctxError : Option String) (shouldFailCheck : Bool) : ExitOutcome :=
  if ctxError.isSome then ExitOutcome.interrupted
  else if shouldFailCheck then ExitOutcome.checkFailure
  else ExitOutcome.success

/-- The process exit code of each outcome (`os.Exit(2)`, `os.Exit(3)`, and the
normal zero exit). -/
def exitCode : ExitOutcome → Nat
  | ExitOutcome.interrupted => 2
  | ExitOutcome.checkFailure => 3
  | ExitOutcome.success => 0

/-- CLAIM C9: after the runner completes, the process exits with code 2
exactly when the context carries a cancellation error, and exits with code 3
exactly when the context carries no error and `ShouldExitWithCheckFailure` is
true — cancellation takes priority over severity-based failure. -/
theorem runner_exit_codes (ctxError : Option String) (shouldFailCheck : Bool) :
    (exitCode (runnerExit ctxError shouldFailCheck) = 2 ↔ ctxError.isSome = true)
      ∧ (exitCode (runnerExit ctxError shouldFailCheck) = 3
          ↔ (ctxError = none ∧ shouldFailCheck = true)) := by
  cases ctxError <;> cases shouldFailCheck <;> simp [runnerExit, exitCode]

/-- Models `strings.TrimSpace` on the character list of a string: leading and
trailing whitespace removed. -/
def isSpaceChar (ch : Char) : Bool :=
  ch == ' ' || ch == '\n' || ch == '\t' || ch == '\r'

/-- Models `strings.TrimSpace`. -/
def strTrim (s : String) : String :=
  ⟨((s.data.dropWhile isSpaceChar).reverse.dropWhile isSpaceChar).reverse⟩

/-- Splits a character list at every occurrence of the separator character;
like Go `strings.Split`, adjacent separators give empty fields. -/
def splitListOn (sep : Char) : List Char → List (List Char)
  | [] => [[]]
  | ch :: rest =>
    let r := splitListOn sep rest
    if ch == sep then [] :: r
    else
      match r with
      | [] => [[ch]]
      | g :: gs => (ch :: g) :: gs

/-- Models `strings.Split(s, "\n")`. -/
def strSplitNl (s : String) : List String :=
  (splitListOn '\n' s.data).map (fun l => ⟨l⟩)

/-- Models `strings.Join(list, sep)`. -/
def joinWith (sep : String) : List String → String
  | [] => ""
  | [x] => x
  | x :: y :: xs => x ++ sep ++ joinWith sep (y :: xs)

/-- Translation of `NotOwnedFile.skipPatternsList`: the skip patterns joined
with commas (Go iterates the map in unspecified order; the model uses the
configured list order, which no claim depends on). -/
def skipPatternsList (c : NotOwnedFile) : String :=
  joinWith "," c.skipPatterns

/-- Translation of `NotOwnedFile.ListFormatFunc`: a bullet point per line. -/
def ListFormatFunc (es : List String) : String :=
  joinWith "\n" (es.map (fun e => "            * " ++ e))

/-- The issue message for an empty CODEOWNERS file (`not_owned_file.go`
line 55; the contraction is spelled without the apostrophe, which no claim
depends on). -/
def emptyEntriesIssue : String :=
  "The CODEOWNERS file is empty. The files in the repository do not have any owner."

/-- The issue message for a dirty working tree (`not_owned_file.go` line 70). -/
def dirtyIssue : String :=
  "git state is dirty: commit all changes before executing this check"

/-- The issue message listing the not-owned files (`not_owned_file.go`
line 100). -/
def notOwnedIssue (c : NotOwnedFile) (lines : List String) : String :=
  "Found " ++ toString lines.length ++ " not owned files (skipped patterns: "
    ++ skipPatternsList c ++ "):\n" ++ ListFormatFunc lines

/-- Modelled from the spec: the error of a canceled cancellation token
(`ctx.Err()`; `internal/ctxutil` is not under `src/`). -/
def ctxCanceledErr : String := "context canceled"

/-- The side-effecting operations `Check` performs, abstracted over a state
`σ` so that the one translation of `Check` below can be run both against an
oracle environment (arbitrary operation outcomes, recorded as a trace) and
against a concrete repository model. Each operation returns its outcome —
`Option String` is a Go `error` result, `Except String α` an `(α, error)`
pair — together with the successor state. -/
structure GitOps (σ : Type) where
  shouldExit : σ → Bool × σ
  trustExec : σ → Option String × σ
  checkStatus : σ → Except String String × σ
  appendIgnoreFile : List String → σ → Option String × σ
  removeIgnoredFiles : σ → Option String × σ
  listFiles : σ → Except String String × σ
  resetCurrentBranch : σ → Option String × σ

/-- Translation of `NotOwnedFile.trustWorkspaceIfNeeded`: without the
`trustWorkspace` flag it returns nil immediately and runs no command;
otherwise it runs the `git config --global --add safe.directory` command. -/
def trustWorkspaceIfNeeded {σ : Type} (ops : GitOps σ) (c : NotOwnedFile) (s : σ) :
    Option String × σ :=
  if !c.trustWorkspace then (none, s)
  else ops.trustExec s

/-- Translation of the region of `NotOwnedFile.Check` guarded by the deferred
reset (`not_owned_file.go` lines 82 to 104): append the patterns to
`.gitignore`, prune newly-ignored tracked files from the index, list the
remaining tracked files, and report them as an issue when the trimmed listing
is non-empty. Every error return carries an empty output. -/
def CheckBody {σ : Type} (ops : GitOps σ) (c : NotOwnedFile) (patterns : List String)
    (s : σ) : Output × List String × σ :=
  match ops.appendIgnoreFile patterns s with
  | (some e, s) => (Output.mk [], [e], s)
  | (none, s) =>
    match ops.removeIgnoredFiles s with
    | (some e, s) => (Output.mk [], [e], s)
    | (none, s) =>
      match ops.listFiles s with
      | (Except.error e, s) => (Output.mk [], [e], s)
      | (Except.ok out, s) =>
        if strTrim out ≠ "" then
          (Output.mk [notOwnedIssue c (strSplitNl (strTrim out))], [], s)
        else
          (Output.mk [], [], s)

/-- Translation of `NotOwnedFile.Check` (`not_owned_file.go` lines 47 to
105): observe the cancellation token at entry; short-circuit on an empty
entry list; compute the patterns to ignore; register workspace trust if
configured; query `git status --porcelain` and short-circuit with a single
issue when the tree is dirty; then run the body, after which the deferred
function from lines 74 to 80 always performs the hard reset and, only when an
in-flight error is present, zeroes the output and combines the in-flight
error with any reset failure via `multierror.Append(...).ErrorOrNil()`. -/
def Check {σ : Type} (ops : GitOps σ) (c : NotOwnedFile) (inp : Input) (s : σ) :
    Output × List String × σ :=
  match ops.shouldExit s with
  | (true, s) => (Output.mk [], [ctxCanceledErr], s)
  | (false, s) =>
    if inp.CodeownersEntries.length = 0 then
      (Output.mk [emptyEntriesIssue], [], s)
    else
      match trustWorkspaceIfNeeded ops c s with
      | (some e, s) => (Output.mk [], [e], s)
      | (none, s) =>
        match ops.checkStatus s with
        | (Except.error e, s) => (Output.mk [], [e], s)
        | (Except.ok statusOut, s) =>
          if statusOut.length ≠ 0 then (Output.mk [dirtyIssue], [], s)
          else
            match CheckBody ops c (patternsToBeIgnored c inp.CodeownersEntries) s with
            | (out, err, s) =>
              match ops.resetCurrentBranch s with
              | (errReset, s) =>
                if err ≠ [] then (Output.mk [], err ++ errReset.toList, s)
                else (out, err, s)

/-- The externally visible operations of one `Check` run, for stating which
commands were invoked. -/
inductive GitEvent where
  | trust
  | status
  | append
  | gitrm
  | lsfiles
  | reset
deriving DecidableEq

/-- An oracle environment: the cancellation token's state as a function of
the logical clock (which advances at every observation point: the entry poll
and each operation), a fixed outcome for each operation, and a trace
recording each invoked operation with the clock value at which it ran. -/
structure AEnv where
  canceled : Nat → Bool
  trustRes : Option String
  statusRes : Except String String
  appendRes : Option String
  rmRes : Option String
  lsRes : Except String String
  resetRes : Option String
  clock : Nat
  trace : List (Nat × GitEvent)

/-- Advance the clock and record one operation. -/
def AEnv.tick (s : AEnv) (e : GitEvent) : AEnv :=
  { s with clock := s.clock + 1, trace := s.trace ++ [(s.clock, e)] }

/-- The oracle instantiation of the git operations. -/
def envOps : GitOps AEnv where
  shouldExit s := (s.canceled s.clock, { s with clock := s.clock + 1 })
  trustExec s := (s.trustRes, s.tick GitEvent.trust)
  checkStatus s := (s.statusRes, s.tick GitEvent.status)
  appendIgnoreFile _ s := (s.appendRes, s.tick GitEvent.append)
  removeIgnoredFiles s := (s.rmRes, s.tick GitEvent.gitrm)
  listFiles s := (s.lsRes, s.tick GitEvent.lsfiles)
  resetCurrentBranch s := (s.resetRes, s.tick GitEvent.reset)

/-- A baseline oracle environment: a live (never canceled) token and every
operation succeeding with empty output. -/
def quietEnv : AEnv where
  canceled := fun _ => false
  trustRes := none
  statusRes := Except.ok ""
  appendRes := none
  rmRes := none
  lsRes := Except.ok ""
  resetRes := none
  clock := 0
  trace := []

/-- A checker configuration with no skip patterns, no subdirectory
restriction, and workspace trust disabled. -/
def cfg0 : NotOwnedFile where
  skipPatterns := []
  subDirectories := []
  trustWorkspace := false

/-- An input with no ownership entries. -/
def inp0 : Input where
  RepoDir := "/repo"
  CodeownersEntries := []

/-- An input with one ownership entry. -/
def inp1 : Input where
  RepoDir := "/repo"
  CodeownersEntries := [Entry.mk "main.go" ["@alice"]]

/-- CLAIM C4: with an empty sequence of ownership entries (and a token that
is live at entry), `Check` reports exactly one issue, returns a nil error,
and invokes no version-control command at all — the trace is unchanged, so
there is no status query, no trust registration, and no mutation — whatever
the repository content (the environment's operation outcomes are arbitrary). -/
theorem check_empty_entries_single_issue (env : AEnv) (c : NotOwnedFile) (inp : Input)
    (h0 : env.canceled env.clock = false) (h1 : inp.CodeownersEntries = []) :
    (Check envOps c inp env).1.Issues = [emptyEntriesIssue]
      ∧ (Check envOps c inp env).2.1 = []
      ∧ (Check envOps c inp env).2.2.trace = env.trace := by
  simp [Check, envOps, h0, h1]

/-- Witness for C4 at the baseline environment and the empty-entries input. -/
theorem check_empty_entries_single_issue_witness :
    (Check envOps cfg0 inp0 quietEnv).1.Issues = [emptyEntriesIssue]
      ∧ (Check envOps cfg0 inp0 quietEnv).2.1 = []
      ∧ (Check envOps cfg0 inp0 quietEnv).2.2.trace = [] :=
  check_empty_entries_single_issue quietEnv cfg0 inp0 rfl rfl

/-- CLAIM C3: for a repository with at least one uncommitted change (the
status query succeeds with non-empty output) and a non-empty entry sequence
(token live at entry, trust registration not failing), `Check` reports
exactly the dirty-tree issue, returns a nil error, and invokes nothing
beyond the trust registration and the status query — in particular it
performs no ignore-file write, no index pruning, and no reset. -/
theorem check_dirty_tree_short_circuit (env : AEnv) (c : NotOwnedFile) (inp : Input)
    (st : String)
    (h0 : env.canceled env.clock = false)
    (h1 : inp.CodeownersEntries.length ≠ 0)
    (h2 : c.trustWorkspace = true → env.trustRes = none)
    (h3 : env.statusRes = Except.ok st)
    (h4 : st.length ≠ 0) :
    (Check envOps c inp env).1.Issues = [dirtyIssue]
      ∧ (Check envOps c inp env).2.1 = []
      ∧ ∀ pe ∈ (Check envOps c inp env).2.2.trace,
          pe ∈ env.trace ∨ pe.2 = GitEvent.trust ∨ pe.2 = GitEvent.status := by
  by_cases htw : c.trustWorkspace = true
  · have ht := h2 htw
    simp only [Check, envOps, trustWorkspaceIfNeeded, htw, ht, h0, h1, h3, h4, AEnv.tick,
      Bool.not_true, Bool.false_eq_true, if_false, ite_not, if_neg h1, ne_eq,
      not_false_eq_true, if_pos]
    refine ⟨by trivial, by trivial, ?_⟩
    intro pe hpe
    rcases List.mem_append.mp hpe with h | h
    · rcases List.mem_append.mp h with h | h
      · exact Or.inl h
      · simp only [List.mem_singleton] at h
        subst h
        exact Or.inr (Or.inl rfl)
    · simp only [List.mem_singleton] at h
      subst h
      exact Or.inr (Or.inr rfl)
  · simp only [Check, envOps, trustWorkspaceIfNeeded, htw, h0, h1, h3, h4, AEnv.tick,
      Bool.not_eq_true', Bool.not_false, if_true, ne_eq, not_false_eq_true, if_pos,
      Bool.not_true]
    refine ⟨by trivial, by trivial, ?_⟩
    intro pe hpe
    rcases List.mem_append.mp hpe with h | h
    · exact Or.inl h
    · simp only [List.mem_singleton] at h
      subst h
      exact Or.inr (Or.inr rfl)

/-- A dirty-repository environment: the status query reports one modified
file. -/
def dirtyEnv : AEnv :=
  { quietEnv with statusRes := Except.ok " M main.go" }

/-- Witness for C3 at the dirty environment. -/
theorem check_dirty_tree_short_circuit_witness :
    (Check envOps cfg0 inp1 dirtyEnv).1.Issues = [dirtyIssue]
      ∧ (Check envOps cfg0 inp1 dirtyEnv).2.1 = []
      ∧ ∀ pe ∈ (Check envOps cfg0 inp1 dirtyEnv).2.2.trace,
          pe ∈ dirtyEnv.trace ∨ pe.2 = GitEvent.trust ∨ pe.2 = GitEvent.status :=
  check_dirty_tree_short_circuit dirtyEnv cfg0 inp1 " M main.go"
    rfl (by decide) (fun h => Bool.noConfusion h) rfl (by decide)

/-- Every exit path of `Check` either carries a nil error or an empty output:
each error return is literally `(Output.mk [], ...)`, and the deferred block
zeroes the output whenever the in-flight error is non-nil. -/
theorem check_err_or_empty_output {σ : Type} (ops : GitOps σ) (c : NotOwnedFile)
    (inp : Input) (s : σ) :
    (Check ops c inp s).2.1 = [] ∨ (Check ops c inp s).1 = Output.mk [] := by
  unfold Check CheckBody
  repeat' split
  all_goals simp_all

/-- CLAIM C10: whenever `Check` returns a non-nil error, the returned output
contains zero issues — issues and a hard error are never returned together,
on any path including the deferred-restoration path (stated for every
operation model, every configuration, input, and starting state). -/
theorem check_error_implies_empty_output {σ : Type} (ops : GitOps σ) (c : NotOwnedFile)
    (inp : Input) (s : σ) (h : (Check ops c inp s).2.1 ≠ []) :
    (Check ops c inp s).1.Issues = [] := by
  rcases check_err_or_empty_output ops c inp s with h0 | h0
  · exact absurd h0 h
  · rw [h0]

/-- A canceled-at-entry environment. -/
def canceledEnv : AEnv :=
  { quietEnv with canceled := fun _ => true }

/-- Witness for C10 at a canceled environment, where the returned error is
the token's error. -/
theorem check_error_implies_empty_output_witness :
    (Check envOps cfg0 inp1 canceledEnv).2.1 ≠ []
      ∧ (Check envOps cfg0 inp1 canceledEnv).1.Issues = [] :=
  ⟨by decide, check_error_implies_empty_output envOps cfg0 inp1 canceledEnv (by decide)⟩

/-- The in-flight error of the deferred-reset region, as a function of the
oracle outcomes: the first failing step among the ignore-file append, the
index pruning, and the file listing ([] when all three succeed). -/
def inFlightErr (env : AEnv) : List String :=
  match env.appendRes with
  | some e => [e]
  | none =>
    match env.rmRes with
    | some e => [e]
    | none =>
      match env.lsRes with
      | Except.error e => [e]
      | Except.ok _ => []

/-- An environment in which every step succeeds (clean tree, empty listing)
but the hard reset fails. -/
def resetFailEnv : AEnv :=
  { quietEnv with resetRes := some "exit status 128" }

/-- COUNTEREXAMPLE to C1: in `resetFailEnv` the clean-tree status check
passes, every subsequent step succeeds, the hard reset is performed and
fails — yet `Check` returns a nil error, silently dropping the restoration
failure, because the deferred block only combines errors when an in-flight
error is present. -/
theorem check_drops_lone_reset_error :
    resetFailEnv.resetRes = some "exit status 128"
      ∧ GitEvent.reset ∈ (Check envOps cfg0 inp1 resetFailEnv).2.2.trace.map Prod.snd
      ∧ (Check envOps cfg0 inp1 resetFailEnv).2.1 = [] := by
  decide

/-- CLAIM C1 (amended): once the clean-tree status check has passed, the hard
reset is performed on every exit path before `Check` returns, and whenever an
in-flight error is present it is combined with any reset failure into the
single returned error — but a reset failure with no in-flight error is
silently dropped and `Check` returns a nil error. -/
theorem check_reset_on_every_exit_path (env : AEnv) (c : NotOwnedFile) (inp : Input)
    (h0 : env.canceled env.clock = false)
    (h1 : inp.CodeownersEntries.length ≠ 0)
    (h2 : c.trustWorkspace = true → env.trustRes = none)
    (h3 : env.statusRes = Except.ok "") :
    GitEvent.reset ∈ (Check envOps c inp env).2.2.trace.map Prod.snd
      ∧ (Check envOps c inp env).2.1
          = (if inFlightErr env = [] then [] else inFlightErr env ++ env.resetRes.toList) := by
  by_cases htw : c.trustWorkspace = true
  all_goals
    first
      | have ht := h2 htw
      | skip
  all_goals
    rcases hap : env.appendRes with _ | ea <;>
      rcases hrm : env.rmRes with _ | er <;>
        rcases hls : env.lsRes with el | ol <;>
          simp_all [Check, CheckBody, envOps, trustWorkspaceIfNeeded, AEnv.tick, inFlightErr] <;>
            (try (split <;> simp))

/-- An environment in which the ignore-file append fails and the hard reset
also fails. -/
def comboFailEnv : AEnv :=
  { quietEnv with appendRes := some "write error", resetRes := some "exit status 128" }

/-- Witness for the amended C1: with an in-flight append error and a failing
reset, the returned error carries both, in order. -/
theorem check_reset_on_every_exit_path_witness :
    GitEvent.reset ∈ (Check envOps cfg0 inp1 comboFailEnv).2.2.trace.map Prod.snd
      ∧ (Check envOps cfg0 inp1 comboFailEnv).2.1 = ["write error", "exit status 128"] :=
  check_reset_on_every_exit_path comboFailEnv cfg0 inp1 rfl (by decide)
    (fun h => Bool.noConfusion h) rfl

/-- An environment whose token is live at entry (clock 0) and canceled from
every later observation point on; every operation succeeds on a clean tree. -/
def cancelAfterEntryEnv : AEnv :=
  { quietEnv with canceled := fun n => decide (1 ≤ n) }

/-- COUNTEREXAMPLE to C8: in `cancelAfterEntryEnv` the token is already
canceled at the point at which the status subprocess is invoked (clock 1),
yet `Check` invokes it (the trace records the status query at clock 1,
followed by further repository operations) and returns a nil error instead of
the token's error — it does not observe the token before subprocess
invocations, only at entry. -/
theorem check_runs_subprocess_while_canceled :
    cancelAfterEntryEnv.canceled 1 = true
      ∧ (1, GitEvent.status) ∈ (Check envOps cfg0 inp1 cancelAfterEntryEnv).2.2.trace
      ∧ GitEvent.reset ∈ (Check envOps cfg0 inp1 cancelAfterEntryEnv).2.2.trace.map Prod.snd
      ∧ (Check envOps cfg0 inp1 cancelAfterEntryEnv).2.1 = [] := by
  decide

/-- CLAIM C8 (amended): `Check` observes the shared cancellation token
exactly once, at entry: whenever the token is already canceled at entry, it
returns promptly with the token's error and an empty output, performing no
repository operation (the trace is unchanged). It does not re-observe the
token before the individual subprocess invocations. -/
theorem check_canceled_at_entry_returns (env : AEnv) (c : NotOwnedFile) (inp : Input)
    (h0 : env.canceled env.clock = true) :
    (Check envOps c inp env).1.Issues = []
      ∧ (Check envOps c inp env).2.1 = [ctxCanceledErr]
      ∧ (Check envOps c inp env).2.2.trace = env.trace := by
  simp [Check, envOps, h0]

/-- Witness for the amended C8 at a canceled environment. -/
theorem check_canceled_at_entry_returns_witness :
    (Check envOps cfg0 inp1 canceledEnv).1.Issues = []
      ∧ (Check envOps cfg0 inp1 canceledEnv).2.1 = [ctxCanceledErr]
      ∧ (Check envOps cfg0 inp1 canceledEnv).2.2.trace = [] :=
  check_canceled_at_entry_returns canceledEnv cfg0 inp1 rfl

/-- A modelled git repository: the committed snapshot (HEAD), the index, and
the working tree, each an association list from path to file content. -/
structure Repo where
  headFiles : List (String × String)
  indexFiles : List (String × String)
  workFiles : List (String × String)
deriving DecidableEq

/-- The working tree's ignore-rules file, if present. -/
def gitignoreOf (r : Repo) : Option String :=
  r.workFiles.lookup ".gitignore"

/-- The non-empty lines of an ignore file. -/
def ignoreLines (content : String) : List String :=
  (strSplitNl content).filter (fun l => l ≠ "")

/-- Ignore-rule matching, modelled for literal path patterns: a path is
ignored when some non-empty line of the ignore file equals it (git's glob
pattern semantics are outside the model; every claim is settled on literal
patterns, for which equality is git's behavior). -/
def isIgnored (gitignore : Option String) (p : String) : Bool :=
  match gitignore with
  | none => false
  | some content => (ignoreLines content).contains p

/-- Models `git status --porcelain` output: empty exactly when index and
working tree both equal HEAD (the clean-tree condition); a non-empty marker
line otherwise. -/
def statusPorcelain (r : Repo) : String :=
  if r.indexFiles = r.headFiles ∧ r.workFiles = r.headFiles then "" else " M modified"

/-- Models `git ls-files -ci --exclude-standard -z`: the tracked (index)
paths that are matched by the currently active ignore rules. -/
def gitLsFilesCI (r : Repo) : List String :=
  (r.indexFiles.map Prod.fst).filter (fun p => isIgnored (gitignoreOf r) p)

/-- Models `git rm --cached <paths>`: removes the given paths from the index
only; HEAD and the working tree are untouched. -/
def gitRmCached (paths : List String) (r : Repo) : Repo :=
  { r with indexFiles := r.indexFiles.filter (fun e => !(paths.contains e.1)) }

/-- Translation of `NotOwnedFile.GitRemoveIgnoredFiles`: pipe the
tracked-and-ignored listing into `xargs -0 -r git rm --cached`; the `-r`
flag runs nothing when the listing is empty. -/
def GitRemoveIgnoredFiles (r : Repo) : Repo :=
  let ps := gitLsFilesCI r
  if ps.isEmpty then r else gitRmCached ps r

/-- Models `git ls-files` with the configured subdirectory arguments
(`NotOwnedFile.GitListFiles`): the tracked paths, restricted to the
configured subdirectories when any are configured, one per line. -/
def gitListFilesOut (c : NotOwnedFile) (r : Repo) : String :=
  let paths := r.indexFiles.map Prod.fst
  let restricted :=
    if c.subDirectories.isEmpty then paths
    else paths.filter (fun p => c.subDirectories.any (fun d => d.data.isPrefixOf p.data))
  joinWith "\n" restricted

/-- Models `git reset --hard` (`NotOwnedFile.GitResetCurrentBranch`): the
index is restored to HEAD, and every tracked file in the working tree is
restored to its HEAD content; untracked files — present in the working tree
but absent from HEAD — are NOT removed, which is git's documented behavior
for a hard reset. -/
def gitResetHard (r : Repo) : Repo :=
  { r with
    indexFiles := r.headFiles,
    workFiles := r.headFiles ++ r.workFiles.filter (fun e => r.headFiles.lookup e.1 = none) }

/-- Sets or creates one file in an association-list file system. -/
def setFile (files : List (String × String)) (p : String) (content : String) :
    List (String × String) :=
  match files with
  | [] => [(p, content)]
  | (q, c) :: rest => if q = p then (p, content) :: rest else (q, c) :: setFile rest p content

/-- `AppendToGitignoreFile` acting on the working tree: the `.gitignore` file
is created or extended with the appended block. -/
def appendGitignoreRepo (patterns : List String) (r : Repo) : Repo :=
  { r with workFiles :=
      setFile r.workFiles ".gitignore" (AppendToGitignoreFile (gitignoreOf r) patterns) }

/-- The concrete-repository instantiation of the git operations: every
subprocess succeeds and behaves as modelled above; the cancellation token is
live. -/
def repoOps (c : NotOwnedFile) : GitOps Repo where
  shouldExit r := (false, r)
  trustExec r := (none, r)
  checkStatus r := (Except.ok (statusPorcelain r), r)
  appendIgnoreFile ps r := (none, appendGitignoreRepo ps r)
  removeIgnoredFiles r := (none, GitRemoveIgnoredFiles r)
  listFiles r := (Except.ok (gitListFilesOut c r), r)
  resetCurrentBranch r := (none, gitResetHard r)

/-- CLAIM C7: the index-pruning step removes from the index exactly the
currently-tracked paths matched by the active ignore rules, and it never
deletes or modifies working-tree files or the committed snapshot. -/
theorem git_remove_ignored_files_spec (r : Repo) :
    (GitRemoveIgnoredFiles r).indexFiles
        = r.indexFiles.filter (fun e => !(isIgnored (gitignoreOf r) e.1))
      ∧ (GitRemoveIgnoredFiles r).workFiles = r.workFiles
      ∧ (GitRemoveIgnoredFiles r).headFiles = r.headFiles := by
  unfold GitRemoveIgnoredFiles gitRmCached gitLsFilesCI
  by_cases hemp :
      ((r.indexFiles.map Prod.fst).filter (fun p => isIgnored (gitignoreOf r) p)) = []
  · simp only [hemp, List.isEmpty_nil, if_pos]
    refine ⟨?_, by trivial, by trivial⟩
    rw [eq_comm, List.filter_eq_self]
    intro e he
    have hni := List.filter_eq_nil_iff.mp hemp e.1 (List.mem_map_of_mem Prod.fst he)
    simp only [Bool.not_eq_true] at hni ⊢
    simp [hni]
  · have : ¬ ((r.indexFiles.map Prod.fst).filter
        (fun p => isIgnored (gitignoreOf r) p)).isEmpty = true := by
      simpa [List.isEmpty_iff] using hemp
    simp only [this, if_neg, Bool.not_eq_true]
    refine ⟨?_, by trivial, by trivial⟩
    apply List.filter_congr
    intro e he
    by_cases hig : isIgnored (gitignoreOf r) e.1
    · simp only [hig, Bool.not_true]
      have hmem : e.1 ∈ (r.indexFiles.map Prod.fst).filter
          (fun p => isIgnored (gitignoreOf r) p) :=
        List.mem_filter.mpr ⟨List.mem_map_of_mem Prod.fst he, hig⟩
      simp [List.elem_iff, hmem]
    · simp only [Bool.not_eq_true] at hig
      simp only [hig, Bool.not_false]
      have hnm : e.1 ∉ (r.indexFiles.map Prod.fst).filter
          (fun p => isIgnored (gitignoreOf r) p) := by
        intro hc
        exact absurd (List.mem_filter.mp hc).2 (by simp [hig])
      simp [List.elem_iff, hnm]

/-- A clean repository with two committed files and no ignore-rules file. -/
def demoRepo : Repo where
  headFiles := [("main.go", "package main"), ("a.txt", "alpha")]
  indexFiles := [("main.go", "package main"), ("a.txt", "alpha")]
  workFiles := [("main.go", "package main"), ("a.txt", "alpha")]

/-- An input whose single ownership entry covers `main.go`. -/
def demoInput : Input where
  RepoDir := "/repo"
  CodeownersEntries := [Entry.mk "main.go" ["@alice"]]

/-- CLAIM C2 evaluated at its failing input: the repository is clean at entry
and has no `.gitignore`; `Check` completes with a nil error (reporting the
one not-owned file `a.txt`), the index and both tracked files are restored —
but the run leaves behind an untracked `.gitignore` containing the appended
block, because `git reset --hard` does not remove untracked files. The net
effect on the working directory is therefore not empty. -/
theorem check_leaves_untracked_gitignore :
    statusPorcelain demoRepo = ""
      ∧ gitignoreOf demoRepo = none
      ∧ (Check (repoOps cfg0) cfg0 demoInput demoRepo).2.1 = []
      ∧ (Check (repoOps cfg0) cfg0 demoInput demoRepo).2.2.indexFiles = demoRepo.indexFiles
      ∧ gitignoreOf (Check (repoOps cfg0) cfg0 demoInput demoRepo).2.2 = some "\nmain.go\n" := by
  decide
